import Mathlib

/-!
Verification of `auto-port-config.py` (repository `arista-scripts`).

The script is Python 2 compatible and manipulates byte strings; we model a
Python string as a `List Char` (`PyStr`).  The string primitives used by the
script — `str.replace(c, '')`, `str.strip()`, `str.lower()`, `str.split(sep)`
and slicing `s[0:6]` — are translated below; `str.lower` on a Python 2 byte
string lowercases exactly the ASCII letters `A`–`Z`.  The `.encode("utf-8")`
call in `check_interface_config` is the identity at this level of modelling
(the script's data is ASCII byte strings throughout).

The switch transport (`jsonrpclib`) is an external collaborator: the learned
mac-address table and the running-config text that it returns are parameters
of the embedded functions, and the command batches the script would send are
returned as data (`runCMD` prefixes every batch with `"enable"`).
-/

abbrev PyStr := List Char

def pys (s : String) : PyStr := s.data

/-- Python 2 `str.lower`: lowercase exactly the ASCII letters `A`–`Z`
(byte value plus 32). -/
def pyLower (c : Char) : Char :=
  if 'A' ≤ c ∧ c ≤ 'Z' then Char.ofNat (c.toNat + 32) else c

/-- The whitespace characters removed by Python 2 `str.strip()`. -/
def pyIsSpace (c : Char) : Bool :=
  c == ' ' || c == '\t' || c == '\n' || c == '\r' || c == '\x0b' || c == '\x0c'

/-- Python `str.strip()`: drop leading and trailing whitespace. -/
def pyStrip (s : PyStr) : PyStr :=
  ((s.dropWhile pyIsSpace).reverse.dropWhile pyIsSpace).reverse

/-- Python `str.replace(c, "")`: remove every occurrence of the character. -/
def pyRemove (c : Char) (s : PyStr) : PyStr :=
  s.filter (fun x => !(x == c))

/-- Python `str.split(sep)` with an explicit one-character separator:
empty pieces are kept, and splitting the empty string yields `[""]`. -/
def pySplit (sep : Char) : PyStr → List PyStr
  | [] => [[]]
  | c :: rest =>
    let r := pySplit sep rest
    if c = sep then [] :: r
    else
      match r with
      | [] => [[c]]
      | piece :: pieces => (c :: piece) :: pieces

/-- `clean_mac_address` (source lines 214–227):
`mac.replace(':','').replace('.','').replace('-','').strip().lower()`. -/
def clean_mac_address (mac : PyStr) : PyStr :=
  (pyStrip (pyRemove '-' (pyRemove '.' (pyRemove ':' mac)))).map pyLower

/-- One entry of the parsed configuration file: a dict with a `macs` list of
address patterns and a `config` list of configuration lines. -/
structure ConfigEntry where
  macs : List PyStr
  config : List PyStr
deriving DecidableEq

/-- The inner pattern loop of `check_interface_macs` (source lines 143–158)
for one config entry: the running state is the pair
`(ouiMatch, defaultMatch)`; an exact match returns the entry early
(`Sum.inl`), otherwise the updated state is produced (`Sum.inr`).
The three `if` statements of the source are sequential and independent:
a `*` pattern overwrites the default match, a pattern equal to the
interface OUI overwrites the OUI match, and a pattern equal to the full
cleaned address returns the entry at once. -/
def scanEntryMacs (mac_address interfaceOUI : PyStr) (config : ConfigEntry) :
    List PyStr → Option ConfigEntry × Option ConfigEntry →
    Sum ConfigEntry (Option ConfigEntry × Option ConfigEntry)
  | [], st => .inr st
  | m :: rest, st =>
    let mac := clean_mac_address m
    let st1 := if mac = [ '*' ] then (st.1, some config) else st
    let st2 := if interfaceOUI = mac then (some config, st1.2) else st1
    if mac_address = mac then .inl config
    else scanEntryMacs mac_address interfaceOUI config rest st2

/-- The middle loop of `check_interface_macs` (source line 142):
scan each config entry in table order, threading the
`(ouiMatch, defaultMatch)` state, with the exact-match early return
propagated outwards. -/
def scanConfigs (mac_address interfaceOUI : PyStr) :
    List ConfigEntry → Option ConfigEntry × Option ConfigEntry →
    Sum ConfigEntry (Option ConfigEntry × Option ConfigEntry)
  | [], st => .inr st
  | config :: rest, st =>
    match scanEntryMacs mac_address interfaceOUI config config.macs st with
    | .inl r => .inl r
    | .inr st2 => scanConfigs mac_address interfaceOUI rest st2

/-- `check_interface_macs` (source lines 104–163), with the switch's
mac-address table passed in as the list of raw `macAddress` strings.

In the source, every control path of the body of the outer
`for mac_address in ... tableEntries` loop returns: an exact pattern match
returns inside the nested loops, and otherwise the trailing
`if ouiMatch != None: return ouiMatch else: return defaultMatch`
returns in both branches.  The loop therefore never reaches a second
iteration, which the translation makes explicit by not using `_rest`;
an empty table falls off the end of the function and yields `None`. -/
def check_interface_macs (tableEntries : List PyStr) (configs : List ConfigEntry) :
    Option ConfigEntry :=
  match tableEntries with
  | [] => none
  | entry :: _rest =>
    let mac_address := clean_mac_address entry
    let interfaceOUI := mac_address.take 6
    match scanConfigs mac_address interfaceOUI configs (none, none) with
    | .inl r => some r
    | .inr st =>
      match st.1 with
      | some o => some o
      | none => st.2

/-- The cleanup pipeline of `check_interface_config` at the level of a list
of lines (the two comprehension steps of source line 184): Python keeps a
line iff it is non-empty **before** stripping (`if line`), and strips each
kept line. -/
def cleanLines (lines : List PyStr) : List PyStr :=
  (lines.filter (fun line => !line.isEmpty)).map pyStrip

/-- The list the live running-config output is reduced to before the set
comparison (source lines 183–185): split on newlines, keep the raw
non-empty lines stripped, then `del config[:1]` removes the first element. -/
def cleanedLiveConfig (output : PyStr) : List PyStr :=
  (cleanLines (pySplit '\n' output)).drop 1

/-- `check_interface_config` (source lines 165–194), with the raw `text`
output of `show running-config interfaces` passed in: `True` means the live
configuration already equals the desired one (as Python sets). -/
def check_interface_config (output : PyStr) (_int_config : ConfigEntry) : Bool :=
  decide ((cleanedLiveConfig output).toFinset = _int_config.config.toFinset)

/-- The comparator under the spec's name: `True` means the interface must be
(re)configured, i.e. the negation of `check_interface_config`. -/
def needsUpdate (output : PyStr) (desired : List PyStr) : Bool :=
  !(check_interface_config output ⟨[], desired⟩)

/-- The command list built by `config_interface` (source line 211):
`["configure", "default interface " + i, "interface " + i] + _config['config']`. -/
def config_interface_cmds (_config : ConfigEntry) (_interface : PyStr) : List PyStr :=
  (pys "configure") ::
  ((pys "default interface ") ++ _interface) ::
  ((pys "interface ") ++ _interface) ::
  _config.config

/-- `runCMD` (source lines 229–253) sends `["enable"] + _cmd` to the switch;
we model the batch it transmits. -/
def runCMD_batch (_cmd : List PyStr) : List PyStr :=
  (pys "enable") :: _cmd

/-- A Python file object opened for reading: the full content plus the
current read position. -/
structure PyFile where
  content : PyStr
  pos : Nat

/-- Reading a file object (as both `yaml.safe_load` and `json.load` do)
consumes it from the current position to the end. -/
def PyFile.readAll (f : PyFile) : PyStr × PyFile :=
  (f.content.drop f.pos, { f with pos := f.content.length })

/-- `parse_config_file` (source lines 65–99).  The YAML and JSON parsers are
external libraries, modelled as abstract total functions from the text they
read to an optional rule table (`None` standing for a raised parse error).
Both are handed the same open file object: `yaml.safe_load(config_file)`
consumes the stream before failing, and the source does not rewind the
handle before `json.load(config_file)`, so the JSON attempt reads only what
is left at the position where the YAML reader stopped (end of file). -/
def parse_config_file
    (yamlParse jsonParse : PyStr → Option (List ConfigEntry))
    (content : PyStr) : Option (List ConfigEntry) :=
  let config_file : PyFile := ⟨content, 0⟩
  let r1 := config_file.readAll
  match yamlParse r1.1 with
  | some configs => some configs
  | none =>
    let r2 := r1.2.readAll
    jsonParse r2.1

/-- The sequence of command batches `main` (source lines 30–63) sends to the
switch, as a function of the parse result and of the data the switch would
report: `None` from the parser aborts before any switch interaction; a
resolver miss stops after the mac-table query; an already-correct interface
stops after the running-config query; otherwise the configuration push is
the third batch. -/
def main_batches (configs : Option (List ConfigEntry)) (inter : PyStr)
    (tableEntries : List PyStr) (liveOutput : PyStr) : List (List PyStr) :=
  match configs with
  | none => []
  | some cfgs =>
    let q1 := runCMD_batch [(pys "show mac address-table interface ") ++ inter]
    match check_interface_macs tableEntries cfgs with
    | none => [q1]
    | some specificConfig =>
      let q2 := runCMD_batch [(pys "show running-config interfaces  ") ++ inter]
      if check_interface_config liveOutput specificConfig then [q1, q2]
      else [q1, q2, runCMD_batch (config_interface_cmds specificConfig inter)]

/-- A config entry holds a wildcard pattern (a pattern cleaning to `"*"`). -/
def hasStar (config : ConfigEntry) : Bool :=
  config.macs.any (fun m => decide (clean_mac_address m = [ '*' ]))

/-- A config entry holds a pattern equal to the given (cleaned) OUI. -/
def hasOUIPattern (interfaceOUI : PyStr) (config : ConfigEntry) : Bool :=
  config.macs.any (fun m => decide (interfaceOUI = clean_mac_address m))

/-- A config entry holds a pattern equal to the given full cleaned address. -/
def hasExactPattern (mac_address : PyStr) (config : ConfigEntry) : Bool :=
  config.macs.any (fun m => decide (mac_address = clean_mac_address m))

/-- The last entry of the list satisfying `p`, if any. -/
def lastMatch (p : ConfigEntry → Bool) : List ConfigEntry → Option ConfigEntry
  | [] => none
  | config :: rest => (lastMatch p rest) <|> (if p config then some config else none)

/-- If some pattern of the entry cleans to the full address, the pattern
scan returns the entry early, whatever the incoming state. -/
theorem scanEntryMacs_exact (addr oui : PyStr) (cfg : ConfigEntry)
    (macs : List PyStr) :
    ∀ st, macs.any (fun m => decide (addr = clean_mac_address m)) = true →
      scanEntryMacs addr oui cfg macs st = .inl cfg := by
  induction macs with
  | nil => intro st h; simp at h
  | cons m rest ih =>
    intro st h
    by_cases he : addr = clean_mac_address m
    · simp [scanEntryMacs, he]
    · rw [List.any_cons] at h
      rw [decide_eq_false he, Bool.false_or] at h
      simp only [scanEntryMacs, if_neg he]
      exact ih _ h

/-- If no pattern of the entry cleans to the full address, the pattern scan
returns the updated state: the OUI slot is overwritten with the entry iff
some pattern cleans to the OUI, the default slot iff some pattern cleans
to `"*"`. -/
theorem scanEntryMacs_no_exact (addr oui : PyStr) (cfg : ConfigEntry)
    (macs : List PyStr) :
    ∀ st, macs.any (fun m => decide (addr = clean_mac_address m)) = false →
      scanEntryMacs addr oui cfg macs st =
        .inr ((if macs.any (fun m => decide (oui = clean_mac_address m)) then some cfg else st.1),
              (if macs.any (fun m => decide (clean_mac_address m = [ '*' ])) then some cfg else st.2)) := by
  induction macs with
  | nil => intro st h; simp [scanEntryMacs]
  | cons m rest ih =>
    intro st h
    rw [List.any_cons] at h
    have he : ¬(addr = clean_mac_address m) := by
      intro hc
      rw [decide_eq_true hc, Bool.true_or] at h
      exact absurd h (by decide)
    rw [decide_eq_false he, Bool.false_or] at h
    simp only [scanEntryMacs, if_neg he]
    rw [ih _ h]
    rcases st with ⟨o, d⟩
    simp only [List.any_cons]
    by_cases ho : oui = clean_mac_address m
    · rw [if_pos ho, decide_eq_true ho, Bool.true_or]
      by_cases hs : clean_mac_address m = [ '*' ]
      · rw [if_pos hs, decide_eq_true hs, Bool.true_or]
        try simp
      · rw [if_neg hs, decide_eq_false hs, Bool.false_or]
        try simp
    · rw [if_neg ho, decide_eq_false ho, Bool.false_or]
      by_cases hs : clean_mac_address m = [ '*' ]
      · rw [if_pos hs, decide_eq_true hs, Bool.true_or]
        try simp
      · rw [if_neg hs, decide_eq_false hs, Bool.false_or]
        try simp

/-- The entry-level scan returns the first entry (in table order) holding an
exact pattern for the address, whatever the incoming state. -/
theorem scanConfigs_exact (addr oui : PyStr) (entries : List ConfigEntry)
    (cfg : ConfigEntry) :
    entries.find? (hasExactPattern addr) = some cfg →
    ∀ st, scanConfigs addr oui entries st = .inl cfg := by
  induction entries with
  | nil => intro h; simp at h
  | cons e rest ih =>
    intro h st
    by_cases hp : hasExactPattern addr e
    · rw [List.find?_cons_of_pos _ hp] at h
      injection h with h
      subst h
      simp only [scanConfigs]
      rw [scanEntryMacs_exact addr oui e e.macs st hp]
    · rw [List.find?_cons_of_neg _ hp] at h
      have hfalse : e.macs.any (fun m => decide (addr = clean_mac_address m)) = false := by
        simpa [hasExactPattern] using hp
      simp only [scanConfigs]
      rw [scanEntryMacs_no_exact addr oui e e.macs st hfalse]
      exact ih h _

/-- When no entry holds an exact pattern for the address, the entry-level
scan produces exactly the last OUI-matching entry (falling back to the
incoming OUI slot) and the last wildcard entry (falling back to the
incoming default slot). -/
theorem scanConfigs_no_exact (addr oui : PyStr) (entries : List ConfigEntry) :
    entries.any (hasExactPattern addr) = false →
    ∀ o d, scanConfigs addr oui entries (o, d) =
      .inr ((lastMatch (hasOUIPattern oui) entries <|> o),
            (lastMatch hasStar entries <|> d)) := by
  induction entries with
  | nil => intro h o d; simp [scanConfigs, lastMatch]
  | cons e rest ih =>
    intro h o d
    rw [List.any_cons] at h
    have h1 : hasExactPattern addr e = false := by
      cases hb : hasExactPattern addr e
      · rfl
      · rw [hb, Bool.true_or] at h; exact absurd h (by decide)
    have h2 : rest.any (hasExactPattern addr) = false := by
      rw [h1, Bool.false_or] at h; exact h
    have hstep : scanConfigs addr oui (e :: rest) (o, d) =
        scanConfigs addr oui rest
          ((if hasOUIPattern oui e then some e else o),
           (if hasStar e then some e else d)) := by
      simp only [scanConfigs]
      rw [scanEntryMacs_no_exact addr oui e e.macs (o, d) (by simpa [hasExactPattern] using h1)]
      rfl
    rw [hstep, ih h2]
    simp only [lastMatch]
    cases hl : lastMatch (hasOUIPattern oui) rest <;>
      cases hls : lastMatch hasStar rest <;>
        cases hpe : hasOUIPattern oui e <;>
          cases hse : hasStar e <;>
            simp [hpe, hse]

/-- The complete behavior of `check_interface_macs` on a non-empty table of
learned addresses: only the first address is consulted; an exact pattern
match returns the first such entry in table order; otherwise the last
OUI-matching entry wins, else the last wildcard entry, else nothing. -/
theorem check_interface_macs_characterization (a : PyStr) (rest : List PyStr)
    (cfgs : List ConfigEntry) :
    check_interface_macs (a :: rest) cfgs =
      (if cfgs.any (hasExactPattern (clean_mac_address a)) then
        cfgs.find? (hasExactPattern (clean_mac_address a))
       else
        (lastMatch (hasOUIPattern ((clean_mac_address a).take 6)) cfgs <|>
          lastMatch hasStar cfgs)) := by
  cases hany : cfgs.any (hasExactPattern (clean_mac_address a))
  · simp only [hany, Bool.false_eq_true, if_false]
    simp only [check_interface_macs]
    rw [scanConfigs_no_exact (clean_mac_address a) ((clean_mac_address a).take 6) cfgs hany none none]
    cases hl : lastMatch (hasOUIPattern ((clean_mac_address a).take 6)) cfgs <;>
      cases hls : lastMatch hasStar cfgs <;> simp
  · have hex : ∃ x ∈ cfgs, hasExactPattern (clean_mac_address a) x :=
      List.any_eq_true.mp hany
    have hsome : (cfgs.find? (hasExactPattern (clean_mac_address a))).isSome :=
      List.find?_isSome.mpr hex
    obtain ⟨cfg, hc⟩ := Option.isSome_iff_exists.mp hsome
    simp only [hany, if_true]
    rw [hc]
    simp only [check_interface_macs]
    rw [scanConfigs_exact (clean_mac_address a) ((clean_mac_address a).take 6) cfgs cfg hc]

/-- Membership survives stripping: `pyStrip` only drops characters. -/
theorem mem_of_mem_pyStrip {c : Char} {s : PyStr} (h : c ∈ pyStrip s) : c ∈ s := by
  unfold pyStrip at h
  rw [List.mem_reverse] at h
  have h2 := (List.dropWhile_sublist pyIsSpace).subset h
  rw [List.mem_reverse] at h2
  exact (List.dropWhile_sublist pyIsSpace).subset h2

/-- `Char.ofNat` round-trips on valid code points. -/
theorem char_toNat_ofNat (n : Nat) (h : n.isValidChar) : (Char.ofNat n).toNat = n := by
  unfold Char.ofNat
  rw [dif_pos h]
  rfl

/-- ASCII lowercasing never produces one of the delimiter characters
unless it was given one. -/
theorem pyLower_ne_delim (c : Char) (h1 : c ≠ ':') (h2 : c ≠ '.') (h3 : c ≠ '-') :
    pyLower c ≠ ':' ∧ pyLower c ≠ '.' ∧ pyLower c ≠ '-' := by
  unfold pyLower
  split_ifs with h
  · have hA : (65 : Nat) ≤ c.toNat := h.1
    have hZ : c.toNat ≤ (90 : Nat) := h.2
    have hval : (Char.ofNat (c.toNat + 32)).toNat = c.toNat + 32 :=
      char_toNat_ofNat _ (Or.inl (by omega))
    refine ⟨fun hc => ?_, fun hc => ?_, fun hc => ?_⟩ <;>
      · have hct := congrArg Char.toNat hc
        rw [hval] at hct
        have h58 : Char.toNat ':' = 58 := rfl
        have h46 : Char.toNat '.' = 46 := rfl
        have h45 : Char.toNat '-' = 45 := rfl
        simp only [h58, h46, h45] at hct
        omega
  · exact ⟨h1, h2, h3⟩

/-- Head of the cleaned line list: the first raw-non-empty line, stripped. -/
theorem cleanLines_head? (lines : List PyStr) :
    (cleanLines lines).head? = (lines.find? (fun l => !l.isEmpty)).map pyStrip := by
  induction lines with
  | nil => rfl
  | cons l rest ih =>
    cases hb : l.isEmpty
    · rw [cleanLines, List.filter_cons]
      rw [List.find?_cons_of_pos _ (by rw [hb]; rfl)]
      simp [hb]
    · rw [cleanLines, List.filter_cons]
      rw [List.find?_cons_of_neg _ (by rw [hb]; exact fun hc => by simp at hc)]
      simp only [hb, Bool.not_true, Bool.false_eq_true, if_false, cleanLines] at ih ⊢
      exact ih

/-- C1: for every rule table and every non-empty list of learned addresses,
`resolve` returns during the iteration of the first learned address: unless
an exact match fires it returns the recorded OUI match if one exists, else
the recorded default match (possibly none), after scanning the rule table
for that first address only, and the result never depends on any learned
address after the first. -/
theorem resolve_first_address_only (cfgs : List ConfigEntry) (a : PyStr)
    (rest : List PyStr) :
    check_interface_macs (a :: rest) cfgs = check_interface_macs [a] cfgs ∧
    check_interface_macs (a :: rest) cfgs =
      (if cfgs.any (hasExactPattern (clean_mac_address a)) then
        cfgs.find? (hasExactPattern (clean_mac_address a))
       else
        (lastMatch (hasOUIPattern ((clean_mac_address a).take 6)) cfgs <|>
          lastMatch hasStar cfgs)) :=
  ⟨rfl, check_interface_macs_characterization a rest cfgs⟩

/-- C2: for the first learned address, if any rule holds a pattern equal to
the full normalized address, `resolve` returns the first such rule in
table-scan order immediately, whatever OUI or wildcard candidates were
recorded before. -/
theorem resolve_exact_short_circuit (cfgs : List ConfigEntry) (a : PyStr)
    (rest : List PyStr)
    (h : cfgs.any (hasExactPattern (clean_mac_address a)) = true) :
    check_interface_macs (a :: rest) cfgs =
      cfgs.find? (hasExactPattern (clean_mac_address a)) := by
  rw [check_interface_macs_characterization, if_pos h]

/-- Witness for C2: a wildcard-plus-OUI rule earlier in the table than the
exact rule — the exact rule is still returned. -/
theorem resolve_exact_short_circuit_witness :
    ([⟨[pys "*", pys "aabbcc"], [pys "cfgA"]⟩,
      ⟨[pys "aabbcc112233"], [pys "cfgB"]⟩] : List ConfigEntry).any
        (hasExactPattern (clean_mac_address (pys "AA:BB:CC:11:22:33"))) = true ∧
    check_interface_macs [pys "AA:BB:CC:11:22:33"]
        [⟨[pys "*", pys "aabbcc"], [pys "cfgA"]⟩,
         ⟨[pys "aabbcc112233"], [pys "cfgB"]⟩] =
      ([⟨[pys "*", pys "aabbcc"], [pys "cfgA"]⟩,
        ⟨[pys "aabbcc112233"], [pys "cfgB"]⟩] : List ConfigEntry).find?
          (hasExactPattern (clean_mac_address (pys "AA:BB:CC:11:22:33"))) :=
  ⟨by decide, resolve_exact_short_circuit _ _ [] (by decide)⟩

/-- C3: when no exact match fires for the first learned address, the last
rule in table order holding the OUI pattern wins (overwrite semantics), the
same holds among wildcard rules, and an OUI match outranks a wildcard
match. -/
theorem resolve_last_oui_wins (cfgs : List ConfigEntry) (a : PyStr)
    (rest : List PyStr)
    (h : cfgs.any (hasExactPattern (clean_mac_address a)) = false) :
    check_interface_macs (a :: rest) cfgs =
      (lastMatch (hasOUIPattern ((clean_mac_address a).take 6)) cfgs <|>
        lastMatch hasStar cfgs) := by
  rw [check_interface_macs_characterization, if_neg (by simp [h])]

/-- Witness for C3: two rules with the same OUI pattern around a wildcard
rule; the second OUI rule is the result. -/
theorem resolve_last_oui_wins_witness :
    ([⟨[pys "aabbcc"], [pys "one"]⟩, ⟨[pys "*"], [pys "w"]⟩,
      ⟨[pys "aabbcc"], [pys "two"]⟩] : List ConfigEntry).any
        (hasExactPattern (clean_mac_address (pys "aa:bb:cc:11:22:33"))) = false ∧
    check_interface_macs [pys "aa:bb:cc:11:22:33"]
        [⟨[pys "aabbcc"], [pys "one"]⟩, ⟨[pys "*"], [pys "w"]⟩,
         ⟨[pys "aabbcc"], [pys "two"]⟩] =
      (lastMatch (hasOUIPattern ((clean_mac_address (pys "aa:bb:cc:11:22:33")).take 6))
          [⟨[pys "aabbcc"], [pys "one"]⟩, ⟨[pys "*"], [pys "w"]⟩,
           ⟨[pys "aabbcc"], [pys "two"]⟩] <|>
        lastMatch hasStar
          [⟨[pys "aabbcc"], [pys "one"]⟩, ⟨[pys "*"], [pys "w"]⟩,
           ⟨[pys "aabbcc"], [pys "two"]⟩]) :=
  ⟨by decide, resolve_last_oui_wins _ _ [] (by decide)⟩

/-- C4 counterexample: the second learned address exactly matches the only
rule, yet `resolve` returns nothing — the function has already returned
(with no match) while processing the first address, so an exact match on a
later address is never seen. -/
theorem resolve_second_address_exact_ignored :
    hasExactPattern (clean_mac_address (pys "aa:bb:cc:11:22:33"))
        ⟨[pys "aabbcc112233"], [pys "switchport mode trunk"]⟩ = true ∧
    check_interface_macs [pys "dd:ee:ff:44:55:66", pys "aa:bb:cc:11:22:33"]
        [⟨[pys "aabbcc112233"], [pys "switchport mode trunk"]⟩] = none ∧
    check_interface_macs [pys "dd:ee:ff:44:55:66", pys "aa:bb:cc:11:22:33"]
        [⟨[pys "aabbcc112233"], [pys "switchport mode trunk"]⟩] ≠
      some ⟨[pys "aabbcc112233"], [pys "switchport mode trunk"]⟩ :=
  ⟨by decide, by decide, by decide⟩

/-- C4 amended: only for the **first** learned address: if it equals a
pattern of rule `R` and `R` is the earliest such rule in table order,
`resolve` returns `R`, regardless of OUI or default matches present in
other rules. -/
theorem resolve_exact_first_address (cfgs : List ConfigEntry) (a : PyStr)
    (rest : List PyStr) (R : ConfigEntry)
    (h : cfgs.find? (hasExactPattern (clean_mac_address a)) = some R) :
    check_interface_macs (a :: rest) cfgs = some R := by
  have hany : cfgs.any (hasExactPattern (clean_mac_address a)) = true :=
    List.any_eq_true.mpr ⟨R, List.mem_of_find?_eq_some h, List.find?_some h⟩
  rw [check_interface_macs_characterization, if_pos hany, h]

/-- Witness for the amended C4: an exact rule after a wildcard rule is
returned for the first address even with a second address present. -/
theorem resolve_exact_first_address_witness :
    ([⟨[pys "*"], [pys "w"]⟩, ⟨[pys "aabbcc112233"], [pys "t"]⟩] :
        List ConfigEntry).find?
        (hasExactPattern (clean_mac_address (pys "aa:bb:cc:11:22:33"))) =
      some ⟨[pys "aabbcc112233"], [pys "t"]⟩ ∧
    check_interface_macs [pys "aa:bb:cc:11:22:33", pys "11:22:33:44:55:66"]
        [⟨[pys "*"], [pys "w"]⟩, ⟨[pys "aabbcc112233"], [pys "t"]⟩] =
      some ⟨[pys "aabbcc112233"], [pys "t"]⟩ :=
  ⟨by decide, resolve_exact_first_address _ _ _ _ (by decide)⟩

/-- C5: `needsUpdate` strips one leading line from the (cleaned) live
configuration and is `false` exactly when the remaining live lines and the
desired lines are equal as sets; the two examples of the spec hold. -/
theorem needsUpdate_set_comparison :
    (∀ live desired, needsUpdate live desired = false ↔
      (cleanedLiveConfig live).toFinset = desired.toFinset) ∧
    needsUpdate (pys " interface Eth1\nswitchport mode trunk\nx")
      [pys "switchport mode trunk", pys "x"] = false ∧
    needsUpdate (pys "interface Eth1\nswitchport mode access")
      [pys "switchport mode trunk"] = true := by
  refine ⟨fun live desired => ?_, by decide, by decide⟩
  simp [needsUpdate, check_interface_config]

/-- C6: with the shared file object modelled faithfully, a file whose
content fails YAML parsing is handed to the JSON parser only as the
already-exhausted remainder of the stream: even when the full content is
valid JSON, parsing yields nothing and the run aborts with no switch
interaction at all. -/
theorem parse_config_file_json_fallback_dead
    (yamlParse jsonParse : PyStr → Option (List ConfigEntry))
    (content : PyStr) (cfg : List ConfigEntry)
    (inter : PyStr) (entries : List PyStr) (live : PyStr)
    (hy : yamlParse content = none)
    (_hj : jsonParse content = some cfg)
    (hempty : jsonParse [] = none) :
    parse_config_file yamlParse jsonParse content = none ∧
    main_batches (parse_config_file yamlParse jsonParse content)
      inter entries live = [] := by
  have hp : parse_config_file yamlParse jsonParse content = none := by
    unfold parse_config_file PyFile.readAll
    simp [List.drop_length, hy, hempty]
  exact ⟨hp, by rw [hp]; rfl⟩

/-- Witness for C6: a concrete parser pair where the content `"[1]"` is
valid JSON and invalid YAML; the fallback still fails. -/
theorem parse_config_file_json_fallback_dead_witness :
    ((fun _ : PyStr => (none : Option (List ConfigEntry))) (pys "[1]") = none) ∧
    ((fun s : PyStr => if s = pys "[1]"
        then some [(⟨[], []⟩ : ConfigEntry)] else none) (pys "[1]") =
      some [(⟨[], []⟩ : ConfigEntry)]) ∧
    ((fun s : PyStr => if s = pys "[1]"
        then some [(⟨[], []⟩ : ConfigEntry)] else none) ([] : PyStr) = none) ∧
    parse_config_file (fun _ : PyStr => none)
      (fun s : PyStr => if s = pys "[1]"
        then some [(⟨[], []⟩ : ConfigEntry)] else none) (pys "[1]") = none :=
  ⟨rfl, by decide, by decide,
    (parse_config_file_json_fallback_dead
      (fun _ : PyStr => none)
      (fun s : PyStr => if s = pys "[1]"
        then some [(⟨[], []⟩ : ConfigEntry)] else none)
      (pys "[1]") [⟨[], []⟩] (pys "Ethernet1") [] (pys "")
      rfl (by decide) (by decide)).1⟩

/-- C7 counterexample: the batch sent by the applier holds an extra command
(`configure`, entering global configuration mode) between the privilege
elevation and the interface commands, so it is never of the claimed shape
privilege-elevation, reset, enter-interface, config lines. -/
theorem config_interface_batch_counterexample :
    ¬ ∃ resetCmd enterCmd : PyStr,
      runCMD_batch (config_interface_cmds
          ⟨[pys "aabbcc"], [pys "switchport mode trunk"]⟩ (pys "Ethernet1")) =
        [pys "enable", resetCmd, enterCmd, pys "switchport mode trunk"] := by
  rintro ⟨r, e, h⟩
  have hlen := congrArg List.length h
  simp [runCMD_batch, config_interface_cmds] at hlen

/-- C7 amended: the single ordered batch is privilege elevation
(`enable`), global configuration mode (`configure`), the reset to default,
entering the interface context, then the rule's config lines in order. -/
theorem config_interface_batch_exact (c : ConfigEntry) (i : PyStr) :
    runCMD_batch (config_interface_cmds c i) =
      (pys "enable") :: (pys "configure") ::
        ((pys "default interface ") ++ i) ::
        ((pys "interface ") ++ i) :: c.config := rfl

/-- C8: the normalizer removes every `:`, `.`, `-`, trims whitespace and
lowercases, with no validation (it is a total function); the three spec
examples all normalize to `aabbcc112233`, and no delimiter character ever
survives in the output. -/
theorem clean_mac_address_contract :
    clean_mac_address (pys "AA:BB:CC:11:22:33") = pys "aabbcc112233" ∧
    clean_mac_address (pys "aabb.cc11.2233") = pys "aabbcc112233" ∧
    clean_mac_address (pys "aa-bb-cc-11-22-33") = pys "aabbcc112233" ∧
    ∀ s : PyStr, (clean_mac_address s).all
      (fun c => !(c == ':' || c == '.' || c == '-')) = true := by
  refine ⟨by decide, by decide, by decide, fun s => ?_⟩
  rw [List.all_eq_true]
  intro c hc
  unfold clean_mac_address at hc
  obtain ⟨c', hc', rfl⟩ := List.mem_map.mp hc
  have h1 : c' ∈ pyRemove '-' (pyRemove '.' (pyRemove ':' s)) := mem_of_mem_pyStrip hc'
  unfold pyRemove at h1
  have hd1 := (List.mem_filter.mp h1).2
  have h2 := (List.mem_filter.mp (List.mem_filter.mp h1).1).2
  have h3 := (List.mem_filter.mp (List.mem_filter.mp (List.mem_filter.mp h1).1).1).2
  have hne1 : c' ≠ '-' := by simpa using hd1
  have hne2 : c' ≠ '.' := by simpa using h2
  have hne3 : c' ≠ ':' := by simpa using h3
  obtain ⟨g1, g2, g3⟩ := pyLower_ne_delim c' hne3 hne2 hne1
  simp [g1, g2, g3]

/-- C9: with no learned addresses on the interface, `resolve` returns none
and the run stops after the mac-table query: no running-config comparison
and no configuration push happen. -/
theorem resolve_empty_address_table (cfgs : List ConfigEntry)
    (inter : PyStr) (live : PyStr) :
    check_interface_macs [] cfgs = none ∧
    main_batches (some cfgs) inter [] live =
      [runCMD_batch [(pys "show mac address-table interface ") ++ inter]] :=
  ⟨rfl, rfl⟩

/-- C10 counterexample: inserting a whitespace-only (blank) line at the top
of the live dump changes the result of `needsUpdate` from `false` to
`true`: the blank line is not dropped (only raw-empty lines are), it is
what `del config[:1]` discards, and the real header line then pollutes the
compared set.  The third conjunct shows the inserted line is blank (it
trims to nothing). -/
theorem whitespace_line_changes_needsUpdate :
    needsUpdate (pys "interface Eth1\nswitchport mode trunk")
      [pys "switchport mode trunk"] = false ∧
    needsUpdate (pys "   \ninterface Eth1\nswitchport mode trunk")
      [pys "switchport mode trunk"] = true ∧
    pyStrip (pys "   ") = [] :=
  ⟨by decide, by decide, by decide⟩

/-- C10 amended: the comparator drops the lines of the live dump that are
empty **before** trimming, then trims the survivors (a whitespace-only line
is kept as an empty string); the discarded leading line is the first line
that was non-empty before trimming; raw-empty lines never affect the
result, but whitespace-only lines can. -/
theorem live_config_cleanup_amended (output : PyStr) (desired : List PyStr)
    (lines l1 l2 : List PyStr) :
    (cleanedLiveConfig output = (cleanLines (pySplit '\n' output)).drop 1) ∧
    (needsUpdate output desired =
      !(decide ((cleanedLiveConfig output).toFinset = desired.toFinset))) ∧
    (cleanLines (l1 ++ [] :: l2) = cleanLines (l1 ++ l2)) ∧
    ((cleanLines lines).head? =
      (lines.find? (fun l => !l.isEmpty)).map pyStrip) :=
  ⟨rfl, rfl,
    by simp [cleanLines, List.filter_append, List.filter_cons],
    cleanLines_head? lines⟩
